import Mathlib

set_option maxHeartbeats 1000000

/-!
Shallow embedding of the tabula repository, file src/tabula/__init__.py:
the Query class over a pandas DataFrame and the parse_chain function that
interprets a dotted method-call chain. Strings from the interpreted
expression are modelled as List Char; a DataFrame is modelled as a Table
of named columns and rows of cell values. The mutable DataFrame objects of
the Python runtime are modelled by a heap (List Table) addressed by
indices, so that statements about mutation of the caller's frame can be
made. All definitions are executable.
-/

/-- Value stored in one cell of a table: an integer, a string, a boolean,
or the missing-value marker used by the mode padding. -/
inductive Value where
  | intV (n : Int)
  | strV (s : String)
  | boolV (b : Bool)
  | nanV
deriving DecidableEq

/-- Table models a pandas DataFrame: named columns in order, and rows of
cells. A well-formed table has every row of the same length as cols. -/
structure Table where
  cols : List String
  rows : List (List Value)
deriving DecidableEq

/-- Default cell used when an index is out of range; never reached on
well-formed input. -/
def dfltV : Value := Value.strV ""

/-- Character for the single quote, written by code point to keep source
text plain. -/
def squote : Char := Char.ofNat 39

/-- Quote characters of the Python strip("\x22\x27") call. -/
def isQuoteCh (c : Char) : Bool := c = '"' || c = squote

/-- Whitespace characters removed by Python str.strip() on ASCII text. -/
def isPySpace (c : Char) : Bool :=
  c = ' ' || c = '\t' || c = '\n' || c = '\r' || c = Char.ofNat 11 || c = Char.ofNat 12

/-- Word characters matched by the regex class backslash-w on ASCII text. -/
def isWordCh (c : Char) : Bool := c.isAlphanum || c = '_'

/-- pyStrip models Python str.strip restricted to a character class:
remove matching characters from both ends. -/
def pyStrip (p : Char → Bool) (l : List Char) : List Char :=
  ((l.dropWhile p).reverse.dropWhile p).reverse

/-- pyTrim models str.strip() with no argument. -/
def pyTrim (l : List Char) : List Char := pyStrip isPySpace l

/-- stripQuotes models str.strip("\x22\x27"). -/
def stripQuotes (l : List Char) : List Char := pyStrip isQuoteCh l

/-- splitOnChar models Python str.split(sep) for a one-character
separator: the empty string yields one empty piece. -/
def splitOnChar (sep : Char) : List Char → List (List Char)
  | [] => [[]]
  | c :: cs =>
    match splitOnChar sep cs with
    | [] => [[]]
    | seg :: rest => if c = sep then [] :: seg :: rest else (c :: seg) :: rest

/-- coerceArg models the per-token processing of line 235 of the source:
arg.strip().strip("\x22\x27"). -/
def coerceArg (l : List Char) : List Char := stripQuotes (pyTrim l)

/-- parseArgs models lines 233 to 235 of the source: args starts empty and
is filled from args_str.split(",") only when args_str is nonempty. -/
def parseArgs (s : List Char) : List (List Char) :=
  if s = [] then [] else (splitOnChar ',' s).map coerceArg

/-- matchCall models re.match of the pattern word-plus, open paren, lazy
dot-star, close paren at end of string, returning the method name and the
stripped argument text. The lazy group with the end anchor forces the
closing paren to be the last character; the dot does not match a newline. -/
def matchCall (s : List Char) : Option (List Char × List Char) :=
  let name := s.takeWhile isWordCh
  if name = [] then none
  else
    match s.drop name.length with
    | '(' :: rest =>
      match rest.reverse with
      | ')' :: revContent =>
        let content := revContent.reverse
        if content.contains '\n' then none else some (name, pyTrim content)
      | _ => none
    | _ => none

/-- Outcome of the outer parse_chain of the source: either the ValueError
raised on a segment that fails the call regex, or the implicit None that
the function returns after its loop, since the nested function it defines
in the loop body is never invoked. -/
inductive ChainOutcome where
  | raised (seg : List Char)
  | returnedNone
deriving DecidableEq

/-- chainLoop models the for loop of the outer parse_chain: each segment
is stripped and matched against the call regex; the first failure raises,
and reaching the end of the list falls off the function body. -/
def chainLoop : List (List Char) → ChainOutcome
  | [] => ChainOutcome.returnedNone
  | c :: rest =>
    match matchCall (pyTrim c) with
    | none => ChainOutcome.raised (pyTrim c)
    | some _ => chainLoop rest

/-- Table used when a heap reference is dangling; never reached on valid
references. -/
def emptyTable : Table := ⟨[], []⟩

/-- parse_chain models the outer parse_chain of the source over a heap of
DataFrame objects: the expression is split on every dot, Query(df) copies
the referenced frame into a fresh heap cell, and the loop only validates
each segment against the call regex, defining but never calling the nested
function; afterwards the function returns None. -/
def parse_chain (expression : List Char) (ref : Nat) (heap : List Table) :
    ChainOutcome × List Table :=
  let calls := splitOnChar '.' expression
  let heap2 := heap ++ [heap.getD ref emptyTable]
  (chainLoop calls, heap2)

deriving instance DecidableEq for Except

/-- Classified errors raised by Query methods as ValueError in the source. -/
inductive QErr where
  | colsNotFound (cs : List String)
  | colNotFound (c : String)
deriving DecidableEq

/-- Index of a column name among the table columns, first occurrence. -/
def Table.colIdx (t : Table) (c : String) : Nat := t.cols.indexOf c

/-- Cell of row i at the column named c. -/
def Table.cellAt (t : Table) (i : Nat) (c : String) : Value :=
  (t.rows.getD i []).getD (t.colIdx c) dfltV

/-- Values of the column at position i, top to bottom. -/
def Table.colAt (t : Table) (i : Nat) : List Value :=
  t.rows.map (fun r => r.getD i dfltV)

/-- Values of the column named c. -/
def Table.colValues (t : Table) (c : String) : List Value :=
  t.colAt (t.colIdx c)

/-- Query.select models Query.select of the source: collect the requested
names missing from the columns, raise naming all of them if any, else
project the frame to the requested columns in the requested order. -/
def Query.select (t : Table) (cs : List String) : Except QErr Table :=
  let missing := cs.filter (fun c => decide (c ∉ t.cols))
  if missing = [] then
    Except.ok ⟨cs, t.rows.map (fun r => cs.map (fun c => r.getD (t.colIdx c) dfltV))⟩
  else Except.error (QErr.colsNotFound missing)

/-- Query.head models Query.head of the source via pandas DataFrame.head:
the first n rows for nonnegative n, all but the last n rows otherwise. -/
def Query.head (t : Table) (n : Int) : Table :=
  if 0 ≤ n then ⟨t.cols, t.rows.take n.toNat⟩
  else ⟨t.cols, t.rows.take (t.rows.length - (-n).toNat)⟩

/-- Code-point comparison of character lists, the order Python uses on
strings. -/
def charListLe : List Char → List Char → Bool
  | [], _ => true
  | _ :: _, [] => false
  | a :: as, b :: bs =>
    if a.toNat < b.toNat then true
    else if b.toNat < a.toNat then false
    else charListLe as bs

/-- Total order on cell values: the pandas order inside one type, and an
arbitrary fixed order across types; pandas raises on mixed-type
comparison and no claim exercises a mixed column, so the cross cases only
make the model order total. -/
def Value.leB : Value → Value → Bool
  | .intV a, .intV b => decide (a ≤ b)
  | .intV _, .strV _ => true
  | .intV _, .boolV _ => true
  | .intV _, .nanV => true
  | .strV _, .intV _ => false
  | .strV a, .strV b => charListLe a.toList b.toList
  | .strV _, .boolV _ => true
  | .strV _, .nanV => true
  | .boolV _, .intV _ => false
  | .boolV _, .strV _ => false
  | .boolV a, .boolV b => !a || b
  | .boolV _, .nanV => true
  | .nanV, .intV _ => false
  | .nanV, .strV _ => false
  | .nanV, .boolV _ => false
  | .nanV, .nanV => true

/-- Row order used by sortby: compare the sort-key cells, flipping the
sides when descending. -/
def rowRel (key : List Value → Value) (ascending : Bool) (r s : List Value) : Prop :=
  (if ascending then (key r).leB (key s) else (key s).leB (key r)) = true

instance (key : List Value → Value) (ascending : Bool) :
    DecidableRel (rowRel key ascending) := fun r s => by
  unfold rowRel; infer_instance

/-- Query.sortby models Query.sortby of the source: raise when the column
is absent, else sort the rows by that column; the second parameter is the
pandas ascending flag and the source defaults it to True. -/
def Query.sortby (t : Table) (col : String) (ascending : Bool) : Except QErr Table :=
  if col ∈ t.cols then
    let key : List Value → Value := fun r => r.getD (t.colIdx col) dfltV
    Except.ok ⟨t.cols, List.insertionSort (rowRel key ascending) t.rows⟩
  else Except.error (QErr.colNotFound col)

/-- seriesMode models pandas Series.mode: the distinct values of maximal
multiplicity, sorted ascending; empty input gives an empty result. -/
def seriesMode (l : List Value) : List Value :=
  let uniq := l.dedup
  let maxCount := (uniq.map (fun v => l.count v)).foldr max 0
  let ms := uniq.filter (fun v => l.count v == maxCount)
  List.insertionSort (fun v w => v.leB w = true) ms

/-- Table.dfMode models pandas DataFrame.mode: per-column modes laid out
as columns, padded at the bottom with missing values. -/
def Table.dfMode (t : Table) : Table :=
  let modesCols := (List.range t.cols.length).map (fun i => seriesMode (t.colAt i))
  let height := (modesCols.map List.length).foldr max 0
  ⟨t.cols, (List.range height).map (fun i => modesCols.map (fun ms => ms.getD i Value.nanV))⟩

/-- Python truthiness of the optional column argument: None and the empty
string are falsy. -/
def colTruthy : Option String → Bool
  | none => false
  | some c => !(c == "")

/-- Result of first and last: a single cell when a column was named, a
whole row otherwise. -/
inductive FLResult where
  | scalar (v : Value)
  | row (r : List Value)
deriving DecidableEq

/-- Table.isEmptyDf models pandas DataFrame.empty: true when either axis
has length zero. -/
def Table.isEmptyDf (t : Table) : Bool := t.rows.isEmpty || t.cols.isEmpty

/-- Query.first models Query.first of the source: with a truthy column
argument, raise when the column is absent, else the first cell of that
column, or None on an empty frame; with no column, the first row or None. -/
def Query.first (t : Table) (col : Option String) : Except QErr (Option FLResult) :=
  if colTruthy col then
    let c := col.getD ""
    if c ∈ t.cols then
      Except.ok (if t.isEmptyDf then none else some (FLResult.scalar (t.cellAt 0 c)))
    else Except.error (QErr.colNotFound c)
  else
    Except.ok (if t.isEmptyDf then none else some (FLResult.row (t.rows.getD 0 [])))

/-- Query.last models Query.last of the source: as Query.first with the
last row in place of the first. -/
def Query.last (t : Table) (col : Option String) : Except QErr (Option FLResult) :=
  if colTruthy col then
    let c := col.getD ""
    if c ∈ t.cols then
      Except.ok (if t.isEmptyDf then none
        else some (FLResult.scalar ((t.rows.getLastD []).getD (t.colIdx c) dfltV)))
    else Except.error (QErr.colNotFound c)
  else
    Except.ok (if t.isEmptyDf then none else some (FLResult.row (t.rows.getLastD [])))

/-- Result of Query.mode: None for an empty mode series, the first mode
value otherwise, or a whole frame of per-column modes on a falsy column
argument. -/
inductive ModeResult where
  | noValue
  | value (v : Value)
  | frame (t : Table)
deriving DecidableEq

/-- Query.mode models Query.mode of the source: with a truthy column
argument, raise when the column is absent, else the first entry of the
column mode series, or None when that series is empty; with a falsy
column, the frame of per-column modes. -/
def Query.mode (t : Table) (col : String) : Except QErr ModeResult :=
  if col ≠ "" then
    if col ∈ t.cols then
      match seriesMode (t.colValues col) with
      | [] => Except.ok ModeResult.noValue
      | v :: _ => Except.ok (ModeResult.value v)
    else Except.error (QErr.colNotFound col)
  else Except.ok (ModeResult.frame t.dfMode)

/-- Sample table of the specification: columns name, age, salary with the
rows Alice 30 70000, Bob 25 50000, Carol 40 90000. -/
def sampleTable : Table :=
  ⟨["name", "age", "salary"],
   [[Value.strV "Alice", Value.intV 30, Value.intV 70000],
    [Value.strV "Bob", Value.intV 25, Value.intV 50000],
    [Value.strV "Carol", Value.intV 40, Value.intV 90000]]⟩

/-- Modelled from the spec: recognizer for coercion rule one, a token
fully wrapped in matching single or double quotes. -/
def specMatchingQuoted (l : List Char) : Bool :=
  decide (2 ≤ l.length) && isQuoteCh (l.headD ' ') && (l.getLastD ' ' == l.headD ' ')

/-- Nonempty run of decimal digits. -/
def specDigits (l : List Char) : Bool := !l.isEmpty && l.all (fun c => c.isDigit)

/-- Mantissa of a numeric literal: digits with an optional decimal point
part, or a decimal point followed by digits. -/
def specMantissa (l : List Char) : Bool :=
  match splitOnChar '.' l with
  | [d] => specDigits d
  | [d, f] => (specDigits d && (f.isEmpty || specDigits f)) || (d.isEmpty && specDigits f)
  | _ => false

/-- Optional leading sign in front of a body recognizer. -/
def specSigned (p : List Char → Bool) (l : List Char) : Bool :=
  match l with
  | [] => false
  | c :: cs => if c = '+' || c = '-' then p cs else p l

/-- Modelled from the spec: recognizer for coercion rule two, a numeric
literal with optional sign, decimal point and exponent. -/
def specNumericToken (l : List Char) : Bool :=
  match splitOnChar 'e' (l.map Char.toLower) with
  | [m] => specSigned specMantissa m
  | [m, ex] => specSigned specMantissa m && specSigned specDigits ex
  | _ => false

/-- Totality of the code-point order on character lists. -/
theorem charListLe_total : ∀ a b : List Char, charListLe a b = true ∨ charListLe b a = true
  | [], _ => Or.inl rfl
  | _ :: _, [] => Or.inr rfl
  | a :: as, b :: bs => by
    rcases Nat.lt_trichotomy a.toNat b.toNat with h | h | h
    · exact Or.inl (by simp [charListLe, h])
    · rcases charListLe_total as bs with h2 | h2
      · exact Or.inl (by simp [charListLe, h, h2])
      · exact Or.inr (by simp [charListLe, h, h2])
    · exact Or.inr (by simp [charListLe, h])

/-- Transitivity of the code-point order on character lists. -/
theorem charListLe_trans : ∀ {a b c : List Char},
    charListLe a b = true → charListLe b c = true → charListLe a c = true
  | [], _, _, _, _ => rfl
  | _ :: _, [], _, h, _ => by simp [charListLe] at h
  | _ :: _, _ :: _, [], _, h => by simp [charListLe] at h
  | a :: as, b :: bs, c :: cs, hab, hbc => by
    by_cases h1 : a.toNat < b.toNat <;> by_cases h2 : b.toNat < c.toNat
    · have h3 : a.toNat < c.toNat := Nat.lt_trans h1 h2
      simp [charListLe, h3]
    · simp only [charListLe, h2, if_false] at hbc
      by_cases h3 : c.toNat < b.toNat
      · simp [h3] at hbc
      · have hbc2 : b.toNat = c.toNat := Nat.le_antisymm (Nat.le_of_not_lt h3) (Nat.le_of_not_lt h2)
        have h4 : a.toNat < c.toNat := hbc2 ▸ h1
        simp [charListLe, h4]
    · simp only [charListLe, h1, if_false] at hab
      by_cases h3 : b.toNat < a.toNat
      · simp [h3] at hab
      · have hab2 : a.toNat = b.toNat := Nat.le_antisymm (Nat.le_of_not_lt h3) (Nat.le_of_not_lt h1)
        have h4 : a.toNat < c.toNat := hab2 ▸ h2
        simp [charListLe, h4]
    · simp only [charListLe, h1, if_false] at hab
      simp only [charListLe, h2, if_false] at hbc
      by_cases h3 : b.toNat < a.toNat
      · simp [h3] at hab
      · by_cases h4 : c.toNat < b.toNat
        · simp [h4] at hbc
        · simp only [h3, if_false] at hab
          simp only [h4, if_false] at hbc
          have hac : ¬ a.toNat < c.toNat := by omega
          have hca : ¬ c.toNat < a.toNat := by omega
          simp only [charListLe, hac, hca, if_false]
          exact charListLe_trans hab hbc

/-- Totality of the value order used by sortby and seriesMode. -/
theorem Value.leB_total : ∀ v w : Value, v.leB w = true ∨ w.leB v = true := by
  intro v w
  cases v <;> cases w <;> simp only [Value.leB, decide_eq_true_eq]
  · exact Int.le_total _ _
  · exact Or.inl trivial
  · exact Or.inl trivial
  · exact Or.inl trivial
  · exact Or.inr trivial
  · exact charListLe_total _ _
  · exact Or.inl trivial
  · exact Or.inl trivial
  · exact Or.inr trivial
  · exact Or.inr trivial
  · rename_i a b
    cases a <;> cases b <;> simp
  · exact Or.inl trivial
  · exact Or.inr trivial
  · exact Or.inr trivial
  · exact Or.inr trivial
  · exact Or.inl trivial

/-- Transitivity of the value order used by sortby and seriesMode. -/
theorem Value.leB_trans : ∀ {v w u : Value},
    v.leB w = true → w.leB u = true → v.leB u = true := by
  intro v w u hvw hwu
  cases v <;> cases w <;> cases u <;>
    simp_all only [Value.leB, decide_eq_true_eq] <;>
    first
      | rfl
      | omega
      | exact absurd hvw (by decide)
      | exact absurd hwu (by decide)
      | exact charListLe_trans hvw hwu
      | (rename_i a b c
         cases a <;> cases b <;> cases c <;> simp_all)

/-- Totality of the row order of sortby, in both directions of the
ascending flag. -/
theorem rowRel_total (key : List Value → Value) (b : Bool) :
    ∀ r s, rowRel key b r s ∨ rowRel key b s r := by
  intro r s
  unfold rowRel
  cases b <;> simp only [if_true, if_false, Bool.false_eq_true]
  · exact Value.leB_total (key s) (key r)
  · exact Value.leB_total (key r) (key s)

/-- Transitivity of the row order of sortby, in both directions of the
ascending flag. -/
theorem rowRel_trans (key : List Value → Value) (b : Bool) :
    ∀ {r s u}, rowRel key b r s → rowRel key b s u → rowRel key b r u := by
  intro r s u h1 h2
  unfold rowRel at h1 h2 ⊢
  cases b <;> simp only [if_true, if_false, Bool.false_eq_true] at h1 h2 ⊢
  · exact Value.leB_trans h2 h1
  · exact Value.leB_trans h1 h2

/-- Helper for claim C7: sortby on a present column succeeds, keeps the
columns, permutes the rows, and orders them by the sort key, ascending
when the flag is true and descending when it is false. -/
theorem sortby_sorts (t : Table) (col : String) (b : Bool) (hmem : col ∈ t.cols) :
    ∃ u, Query.sortby t col b = Except.ok u ∧ u.cols = t.cols ∧
      u.rows.Perm t.rows ∧
      List.Sorted (rowRel (fun r => r.getD (t.colIdx col) dfltV) b) u.rows := by
  refine ⟨⟨t.cols, List.insertionSort (rowRel (fun r => r.getD (t.colIdx col) dfltV) b) t.rows⟩, ?_, rfl, ?_, ?_⟩
  · unfold Query.sortby
    rw [if_pos hmem]
  · exact List.perm_insertionSort _ _
  · haveI : IsTotal (List Value) (rowRel (fun r => r.getD (t.colIdx col) dfltV) b) :=
      ⟨rowRel_total _ _⟩
    haveI : IsTrans (List Value) (rowRel (fun r => r.getD (t.colIdx col) dfltV) b) :=
      ⟨fun _ _ _ => rowRel_trans _ _⟩
    exact List.sorted_insertionSort _ _

/-- Claim C6, confirmed: when every requested name is a column of the
table, select returns a table whose columns are exactly the requested
names in the requested order, with the same number of rows and each cell
taken from the matching cell of the source row; when some requested name
is absent, select fails with a columns-not-found error that names it, and
no partial table is produced. -/
theorem claim_c6_select_projects_or_fails (t : Table) (cs : List String) :
    ((∀ c ∈ cs, c ∈ t.cols) →
      ∃ u, Query.select t cs = Except.ok u ∧ u.cols = cs ∧
        u.rows.length = t.rows.length ∧
        ∀ i c, i < t.rows.length → c ∈ cs → u.cellAt i c = t.cellAt i c)
  ∧ (∀ c ∈ cs, c ∉ t.cols →
      ∃ ms, Query.select t cs = Except.error (QErr.colsNotFound ms) ∧ c ∈ ms) := by
  constructor
  · intro hall
    have hmiss : cs.filter (fun c => decide (c ∉ t.cols)) = [] := by
      rw [List.filter_eq_nil_iff]
      intro c hc
      simpa using hall c hc
    refine ⟨⟨cs, t.rows.map (fun r => cs.map (fun c => r.getD (t.colIdx c) dfltV))⟩, ?_, rfl, ?_, ?_⟩
    · unfold Query.select
      rw [hmiss]
      rfl
    · exact List.length_map _ _
    · intro i c hi hc
      have hidx : cs.indexOf c < cs.length := List.indexOf_lt_length.mpr hc
      unfold Table.cellAt Table.colIdx
      simp only
      have hi2 : i < (t.rows.map (fun r => cs.map (fun c => r.getD (List.indexOf c t.cols) dfltV))).length := by
        simpa using hi
      rw [List.getD_eq_getElem _ _ hi2, List.getElem_map, List.getD_eq_getElem _ _ hi]
      have hidx2 : List.indexOf c cs < (cs.map (fun c2 => t.rows[i].getD (List.indexOf c2 t.cols) dfltV)).length := by
        simpa using hidx
      rw [List.getD_eq_getElem _ _ hidx2, List.getElem_map, List.getElem_indexOf hidx]
  · intro c hc hnot
    have hmem : c ∈ cs.filter (fun c => decide (c ∉ t.cols)) :=
      List.mem_filter.mpr ⟨hc, by simpa using hnot⟩
    refine ⟨cs.filter (fun c => decide (c ∉ t.cols)), ?_, hmem⟩
    unfold Query.select
    rw [if_neg (List.ne_nil_of_mem hmem)]

/-- Claim C9, confirmed: on a table with distinct column names containing
a and b, selecting the columns a and b and then selecting a equals
selecting a directly. -/
theorem claim_c9_select_select_roundtrip (t : Table) (a b : String) (hnd : t.cols.Nodup)
    (ha : a ∈ t.cols) (hb : b ∈ t.cols) :
    (Query.select t [a, b]).bind (fun u => Query.select u [a]) = Query.select t [a] := by
  have h1 : ([a, b] : List String).filter (fun c => decide (c ∉ t.cols)) = [] := by
    simp [List.filter, ha, hb]
  have h2 : ([a] : List String).filter (fun c => decide (c ∉ t.cols)) = [] := by
    simp [List.filter, ha]
  have L1 : Query.select t [a, b] =
      Except.ok ⟨[a, b], t.rows.map (fun r => [a, b].map (fun c => r.getD (t.colIdx c) dfltV))⟩ := by
    unfold Query.select
    rw [h1]
    rfl
  have L2 : Query.select t [a] =
      Except.ok ⟨[a], t.rows.map (fun r => [a].map (fun c => r.getD (t.colIdx c) dfltV))⟩ := by
    unfold Query.select
    rw [h2]
    rfl
  rw [L1, L2]
  show Query.select _ [a] = _
  have h3 : ([a] : List String).filter (fun c => decide (c ∉ ([a, b] : List String))) = [] := by
    simp [List.filter]
  unfold Query.select
  simp only [h3]
  rw [List.map_map]
  refine congrArg Except.ok (congrArg (Table.mk [a]) ?_)
  apply List.map_congr_left
  intro r _
  simp [Function.comp, Table.colIdx, List.indexOf_cons_self]

/-- Claim C10, confirmed: on a table with zero rows, first and last
return the defined no-value result None rather than raising, both with
and without a named column, and mode on a column of that table likewise
returns the no-value result. -/
theorem claim_c10_empty_no_value_results (t : Table) (c : String) (hrows : t.rows = []) :
    Query.first t none = Except.ok none ∧
    Query.last t none = Except.ok none ∧
    (c ∈ t.cols → Query.first t (some c) = Except.ok none) ∧
    (c ∈ t.cols → Query.last t (some c) = Except.ok none) ∧
    (c ∈ t.cols → c ≠ "" → Query.mode t c = Except.ok ModeResult.noValue) := by
  obtain ⟨cols, rows⟩ := t
  simp only at hrows
  subst hrows
  refine ⟨?_, ?_, ?_, ?_, ?_⟩
  · simp [Query.first, colTruthy, Table.isEmptyDf]
  · simp [Query.last, colTruthy, Table.isEmptyDf]
  · intro hc
    by_cases hce : c = ""
    · simp [Query.first, colTruthy, hce, Table.isEmptyDf]
    · simp [Query.first, colTruthy, hce, hc, Table.isEmptyDf]
  · intro hc
    by_cases hce : c = ""
    · simp [Query.last, colTruthy, hce, Table.isEmptyDf]
    · simp [Query.last, colTruthy, hce, hc, Table.isEmptyDf]
  · intro hc hne
    unfold Query.mode
    rw [if_pos hne, if_pos hc]
    rfl

/-- Claim C8, confirmed: parse_chain never mutates the table the caller
passed in; after the call the heap holds, at every previously valid
reference, exactly the table it held before, because the Query
constructor copies the frame into a fresh cell and nothing writes to the
existing cells. -/
theorem claim_c8_parse_chain_preserves_caller_table (expression : List Char) (ref i : Nat) (heap : List Table)
    (hi : i < heap.length) :
    ((parse_chain expression ref heap).2).get? i = heap.get? i := by
  unfold parse_chain
  exact List.get?_append hi

/-- Helper for claim C3: splitting on a separator yields one more piece
than the number of separator occurrences, because every occurrence is a
split point. -/
theorem splitOnChar_length (sep : Char) : ∀ l : List Char,
    (splitOnChar sep l).length = l.count sep + 1
  | [] => rfl
  | c :: cs => by
    have ih := splitOnChar_length sep cs
    cases h : splitOnChar sep cs with
    | nil =>
      rw [h] at ih
      simp only [List.length_nil] at ih
      omega
    | cons seg rest =>
      rw [h] at ih
      simp only [List.length_cons] at ih
      by_cases hc : c = sep
      · simp [splitOnChar, h, hc, List.count_cons]
        omega
      · simp [splitOnChar, h, hc, List.count_cons]
        omega

/-- Helper for claim C3: on a nonempty argument string the lexer yields
exactly one token per comma-delimited piece, quoted or not. -/
theorem parseArgs_length (s : List Char) (hne : s ≠ []) :
    (parseArgs s).length = s.count ',' + 1 := by
  unfold parseArgs
  rw [if_neg hne, List.length_map]
  exact splitOnChar_length ',' s

/-- Helper for claim C4: dropWhile keeps a list whose head fails the
predicate. -/
theorem dropWhile_head_false {p : Char → Bool} {c : Char} (cs : List Char)
    (h : p c = false) : (c :: cs).dropWhile p = c :: cs := by
  simp [List.dropWhile_cons, h]

/-- Helper for claim C4: stripping from the right removes a final
character that satisfies the predicate. -/
theorem revDrop_concat_pos (p : Char → Bool) (l : List Char) (a : Char) (h : p a = true) :
    ((l ++ [a]).reverse.dropWhile p).reverse = (l.reverse.dropWhile p).reverse := by
  rw [List.reverse_append]
  simp [List.dropWhile_cons, h]

/-- Helper for claim C4: stripping from the right keeps a list whose
final character fails the predicate. -/
theorem revDrop_concat_neg (p : Char → Bool) (l : List Char) (a : Char) (h : p a = false) :
    ((l ++ [a]).reverse.dropWhile p).reverse = l ++ [a] := by
  rw [List.reverse_append]
  simp [List.dropWhile_cons, h]

/-- Helper for claim C4: stripping from the right keeps a nonempty list
whose last character fails the predicate. -/
theorem revDrop_last_false (p : Char → Bool) (l : List Char) (hne : l ≠ [])
    (hlast : p (l.getLastD ' ') = false) :
    (l.reverse.dropWhile p).reverse = l := by
  rcases l.eq_nil_or_concat with rfl | ⟨L, b, rfl⟩
  · exact absurd rfl hne
  · simp only [List.concat_eq_append] at hlast ⊢
    have hb : p b = false := by
      simpa [List.getLastD_concat] using hlast
    exact revDrop_concat_neg p L b hb

/-- Claim C4, amended theorem: the coercer returns every token as an
untyped string after trimming whitespace and stripping all leading and
trailing quote characters whether or not they match; a token wrapped in
matching quotes with quote-free inner boundaries yields the inner text,
while the tokens True and 2 pass through as raw strings rather than
becoming typed boolean or integer values. -/
theorem claim_c4_coercer_strip_semantics :
    (∀ (q c : Char) (cs : List Char), isQuoteCh q = true → isQuoteCh c = false →
        isQuoteCh ((c :: cs).getLastD ' ') = false →
        coerceArg ((q :: (c :: cs)) ++ [q]) = c :: cs)
  ∧ coerceArg ("True".toList) = "True".toList
  ∧ coerceArg ("2".toList) = "2".toList := by
  refine ⟨?_, by decide, by decide⟩
  intro q c cs hq hc hlast
  have hq2 : q = '"' ∨ q = squote := by
    simpa [isQuoteCh, decide_eq_true_eq] using hq
  have hqs : isPySpace q = false := by
    rcases hq2 with rfl | rfl <;> decide
  have htrim : pyTrim ((q :: (c :: cs)) ++ [q]) = (q :: (c :: cs)) ++ [q] := by
    unfold pyTrim pyStrip
    rw [List.cons_append, dropWhile_head_false _ hqs, ← List.cons_append]
    exact revDrop_concat_neg _ _ _ hqs
  have hstrip : stripQuotes ((q :: (c :: cs)) ++ [q]) = c :: cs := by
    unfold stripQuotes pyStrip
    rw [List.cons_append, List.dropWhile_cons, if_pos hq]
    rw [List.cons_append, dropWhile_head_false _ hc, ← List.cons_append]
    rw [revDrop_concat_pos _ _ _ hq]
    exact revDrop_last_false _ _ (by simp) hlast
  unfold coerceArg
  rw [htrim, hstrip]

/-- Claim C1, code bug: evaluating select(age,salary).head(2) on the
sample table through parse_chain returns the Python value None instead of
the projected two-row table, because the loop of parse_chain only
validates each segment against the call regex, defines a nested function
it never invokes, and falls off the end of the function body; the
expected behavior is asserted by the test file of the module. -/
theorem claim_c1_parse_chain_returns_none :
    (parse_chain ("select(age,salary).head(2)".toList) 0 [sampleTable]).1 =
      ChainOutcome.returnedNone := by decide

/-- Claim C2, code bug: the chain min(age).max(age), whose terminal
operation min is not last, is not rejected; parse_chain raises no error
before, during or after its loop and returns None, while the claim and
the test file of the module expect a must-be-the-last-call error. -/
theorem claim_c2_terminal_midchain_not_rejected :
    (parse_chain ("min(age).max(age)".toList) 0 [sampleTable]).1 =
      ChainOutcome.returnedNone := by decide

/-- Claim C5, code bug: the expression invalid_method() is accepted by
parse_chain, which returns None without any classified error, because the
segment matches the call regex and the unknown-method check lives only in
the dead nested function; the test file of the module expects a failure
naming the method. -/
theorem claim_c5_unknown_method_not_rejected :
    (parse_chain ("invalid_method()".toList) 0 [sampleTable]).1 =
      ChainOutcome.returnedNone := by decide

/-- Claim C3, counterexample: on the argument string of
strjoin(name, comma-space in single quotes) the lexer yields three
tokens, the word name and two empty strings, not the two tokens the claim
states, because it splits on the comma inside the quoted span. -/
theorem claim_c3_quoted_comma_counterexample :
    parseArgs ("name, \x27, \x27".toList) = ["name".toList, [], []] ∧
    parseArgs ("name, \x27, \x27".toList) ≠ ["name".toList, ", ".toList] := by decide

/-- Claim C3, amended theorem: the argument lexer splits on every comma,
including commas inside quoted spans; a nonempty argument string yields
exactly one token per comma plus one, and the strjoin example yields the
three tokens name, empty, empty. -/
theorem claim_c3_lexer_splits_every_comma :
    (∀ s : List Char, s ≠ [] → (parseArgs s).length = s.count ',' + 1)
  ∧ parseArgs ("name, \x27, \x27".toList) = ["name".toList, [], []] :=
  ⟨parseArgs_length, by decide⟩

/-- Witness for claim C3 at the strjoin argument string. -/
theorem claim_c3_witness :
    (parseArgs ("name, \x27, \x27".toList)).length = ("name, \x27, \x27".toList).count ',' + 1 :=
  claim_c3_lexer_splits_every_comma.1 _ (by decide)

/-- Claim C4, counterexample: the token consisting of a single quote, the
letter a and a double quote matches neither the matching-quotes rule nor
the numeric or boolean rule of the claim, so the claim requires it to
pass through unchanged, yet the coercer strips the unmatched quote
characters and returns just the letter a. -/
theorem claim_c4_raw_token_counterexample :
    specMatchingQuoted ("\x27a\"".toList) = false ∧
    specNumericToken ("\x27a\"".toList) = false ∧
    "\x27a\"".toList ≠ "True".toList ∧
    "\x27a\"".toList ≠ "False".toList ∧
    coerceArg ("\x27a\"".toList) ≠ "\x27a\"".toList := by decide

/-- Witness for claim C4 at the quoted comma-space token of the strjoin
example. -/
theorem claim_c4_witness :
    coerceArg ((squote :: (',' :: [' '])) ++ [squote]) = ',' :: [' '] :=
  claim_c4_coercer_strip_semantics.1 squote ',' [' '] (by decide) (by decide) (by decide)

/-- Witness for claim C6 at the sample table and the columns age and
salary. -/
theorem claim_c6_witness :
    ∃ u, Query.select sampleTable ["age", "salary"] = Except.ok u ∧
      u.cols = ["age", "salary"] ∧
      u.rows.length = sampleTable.rows.length ∧
      ∀ i c, i < sampleTable.rows.length → c ∈ ["age", "salary"] →
        u.cellAt i c = sampleTable.cellAt i c :=
  (claim_c6_select_projects_or_fails sampleTable ["age", "salary"]).1 (by decide)

/-- Claim C7, counterexample: sortby(age,true).head(1) on the sample
table does not yield the row of Carol; the flag is the pandas ascending
flag, so true puts the smallest age first. -/
theorem claim_c7_descending_counterexample :
    (Query.sortby sampleTable "age" true).map (fun t => Query.head t 1) ≠
      Except.ok ⟨["name", "age", "salary"],
        [[Value.strV "Carol", Value.intV 40, Value.intV 90000]]⟩ := by decide

/-- Claim C7, amended theorem: sortby takes a column name and an optional
boolean ascending flag defaulting to true in the source; sorting a
present column succeeds, keeps the columns, permutes the rows and orders
them by the column, and on the sample table sortby(age,false).head(1)
yields the row of Carol while sortby(age,true).head(1) yields the row of
Bob. -/
theorem claim_c7_sortby_ascending_semantics :
    (∀ (t : Table) (col : String) (b : Bool), col ∈ t.cols →
      ∃ u, Query.sortby t col b = Except.ok u ∧ u.cols = t.cols ∧
        u.rows.Perm t.rows ∧
        List.Sorted (rowRel (fun r => r.getD (t.colIdx col) dfltV) b) u.rows)
  ∧ (Query.sortby sampleTable "age" false).map (fun t => Query.head t 1) =
      Except.ok ⟨["name", "age", "salary"],
        [[Value.strV "Carol", Value.intV 40, Value.intV 90000]]⟩
  ∧ (Query.sortby sampleTable "age" true).map (fun t => Query.head t 1) =
      Except.ok ⟨["name", "age", "salary"],
        [[Value.strV "Bob", Value.intV 25, Value.intV 50000]]⟩ :=
  ⟨sortby_sorts, by decide, by decide⟩

/-- Witness for claim C7 at the sample table sorted descending by age. -/
theorem claim_c7_witness :
    ∃ u, Query.sortby sampleTable "age" false = Except.ok u ∧
      u.cols = sampleTable.cols ∧ u.rows.Perm sampleTable.rows ∧
      List.Sorted (rowRel (fun r => r.getD (sampleTable.colIdx "age") dfltV) false) u.rows :=
  claim_c7_sortby_ascending_semantics.1 sampleTable "age" false (by decide)

/-- Witness for claim C8 at a one-table heap. -/
theorem claim_c8_witness :
    ((parse_chain ("head(2)".toList) 0 [sampleTable]).2).get? 0 = [sampleTable].get? 0 :=
  claim_c8_parse_chain_preserves_caller_table ("head(2)".toList) 0 0 [sampleTable] (by decide)

/-- Witness for claim C9 at the sample table with the columns age and
salary. -/
theorem claim_c9_witness :
    (Query.select sampleTable ["age", "salary"]).bind (fun u => Query.select u ["age"]) =
      Query.select sampleTable ["age"] :=
  claim_c9_select_select_roundtrip sampleTable "age" "salary" (by decide) (by decide) (by decide)

/-- Witness for claim C10 at a zero-row table with the single column
age. -/
theorem claim_c10_witness :
    Query.first (⟨["age"], []⟩ : Table) (some "age") = Except.ok none ∧
    Query.mode (⟨["age"], []⟩ : Table) "age" = Except.ok ModeResult.noValue := by
  have h := claim_c10_empty_no_value_results ⟨["age"], []⟩ "age" rfl
  exact ⟨h.2.2.1 (by decide), h.2.2.2.2 (by decide) (by decide)⟩
